import Mathlib

/-!
Shallow embedding of the two scripts of the minGPT poem repository:
`english_disgraced_poetry.py` (the corpus builder) and `poem_gen.py`
(the generation loop).  Strings are modelled as `List Char`; Python
exceptions (IndexError on a failed `split(...)[1]`, I/O errors) are
modelled with `Option`.
-/

namespace PoemRepo

/-- Number of line-break characters in a string
(Python `s.count("\n")`). -/
def countNL (l : List Char) : Nat := l.count '\n'

/-- Index of the first occurrence of the pattern `pat` as a contiguous
sublist (Python `s.index(pat)` / the scanner behind `s.split(pat)`),
`none` when the pattern does not occur. -/
def firstOcc (pat : List Char) : List Char → Option Nat
  | [] => if pat = [] then some 0 else none
  | c :: t => if pat.isPrefixOf (c :: t) then some 0 else (firstOcc pat t).map (· + 1)

/-- Fuelled worker for `splitOnSep`. -/
def splitOnAux (sep : List Char) : Nat → List Char → List (List Char)
  | 0, s => [s]
  | fuel + 1, s =>
    match firstOcc sep s with
    | none => [s]
    | some i => s.take i :: splitOnAux sep fuel (s.drop (i + sep.length))

/-- Python `s.split(sep)` for a non-empty separator: the pieces of `s`
between the non-overlapping leftmost occurrences of `sep`. -/
def splitOnSep (sep s : List Char) : List (List Char) :=
  splitOnAux sep (s.length + 1) s

/-- Python `folder.capitalize()`: first character upper-cased, the rest
lower-cased. -/
def capitalize : List Char → List Char
  | [] => []
  | c :: t => c.toUpper :: t.map Char.toLower

/-- The camel-case undoing loop of `english_disgraced_poetry.py`
(lines 16-22): every upper-case character gets a space inserted in
front of it. -/
def insertSpaces : List Char → List Char
  | [] => []
  | c :: t => (if c.isUpper then [' ', c] else [c]) ++ insertSpaces t

/-- Filename parsing of `english_disgraced_poetry.py` lines 13-29:
split the filename on `folder.capitalize() + "Poems"` and take part 1
(IndexError = `none` when the marker is absent), undo the camel case,
split on `"Poemby"`, the title is part 0 and the author is part 1 up
to the first `"."` with its first character dropped. -/
def parseTitleAuthor (folder file : List Char) : Option (List Char × List Char) :=
  let marker := capitalize folder ++ "Poems".data
  match (splitOnSep marker file).get? 1 with
  | none => none
  | some file_name =>
    match file_name with
    | [] => none
    | c0 :: rest =>
      let new_file_name := c0 :: insertSpaces rest
      let poem_info := splitOnSep "Poemby".data new_file_name
      match poem_info.get? 1 with
      | none => none
      | some p1 =>
        let title := poem_info.headI
        let author := ((splitOnSep ['.'] p1).headI).drop 1
        some (title, author)

/-- One pass of the line-reflow loop body (line 43):
`line = line[:i*60] + "\n" + line[i*60:]`. -/
def reflowStep (line : List Char) (i : Nat) : List Char :=
  line.take (i * 60) ++ '\n' :: line.drop (i * 60)

/-- The reflow loop of lines 41-43: `initial_length = int(len(line)/60)`
then `for i in range(1, initial_length)` insert a newline at position
`i*60` of the evolving line. -/
def reflow (line : List Char) : List Char :=
  (List.range' 1 (line.length / 60 - 1)).foldl reflowStep line

/-- The contribution one file makes to `mega_string` (lines 12-55).
`fileLines` is the result of `open(...).readlines()`, `none` modelling
an I/O failure caught by the inner `except`.  All failure paths
(`except` blocks and the `len(lines) > 20` filter) contribute nothing. -/
def processFile (folder file : List Char) (fileLines : Option (List (List Char))) : List Char :=
  match parseTitleAuthor folder file with
  | none => []
  | some (title, author) =>
    match fileLines with
    | none => []
    | some lines =>
      if lines.length > 20 then []
      else
        "Poem Start\n".data ++ title ++ "\n\n".data
          ++ (lines.map reflow).flatten
          ++ "\nEND\n".data ++ author ++ "\n\n\n".data

/-- The whole corpus build: `mega_string` accumulated with `+=` over
the files, each described by its folder, name and contents. -/
def buildMega (inputs : List (List Char × List Char × Option (List (List Char)))) : List Char :=
  inputs.foldl (fun mega inp => mega ++ processFile inp.1 inp.2.1 inp.2.2) []

/-- Modelled from the spec: the reflow behaviour the spec claims — the
line is cut into ceil(L/60) chunks of at most 60 characters, each
chunk but the last followed by a newline.  `chunk60` is fuelled by the
length of the list. -/
def chunk60 : Nat → List Char → List (List Char)
  | _, [] => []
  | 0, l => [l]
  | fuel + 1, l => l.take 60 :: chunk60 fuel (l.drop 60)

/-- Modelled from the spec: the reflowed line the spec describes. -/
def reflowSpec (line : List Char) : List Char :=
  ((chunk60 line.length line).intersperse ['\n']).flatten

/-! ## Generation loop (`poem_gen.py`) -/

/-- The literal `"END"` marker searched for at line 112. -/
def endMarker : List Char := "END".data

/-- Lines 112-113: `first_end = completion.index("END")` and
`generation = completion[:first_end + 3]`.  `none` models the
unhandled `ValueError` when the marker is absent. -/
def generationOf (c : List Char) : Option (List Char) :=
  (firstOcc endMarker c).map (fun i => c.take (i + 3))

/-- Line 114: `number_of_line_breaks = generation.count("\n")`. -/
def lineBreaksOf (c : List Char) : Option Nat :=
  (generationOf c).map countNL

/-- Observable events of one iteration of the retry loop: the
checkpoint load of line 107 and the prompt-construction/sampling of
lines 108-110 for attempt `k`. -/
inductive Ev where
  | load : Ev
  | sample : Nat → Ev
deriving DecidableEq, BEq

/-- How the retry loop ends: acceptance at attempt `k` with the kept
generation, a crash at attempt `k` (missing `"END"` marker), or fuel
exhaustion (the loop is still running). -/
inductive LoopResult where
  | ok : Nat → List Char → LoopResult
  | crash : Nat → LoopResult
  | fuelOut : LoopResult
deriving DecidableEq, BEq

/-- The retry loop of lines 105-114, driven by the sequence `s` of
sampled completions (attempt `k` decodes to `s k`).  Each iteration
loads the checkpoint, samples, truncates at the first `"END"` and
exits exactly when the truncated generation has at most 18 line
breaks (`while number_of_line_breaks > 18`, entered unconditionally
because the count starts at 1000).  The second component is the event
trace. -/
def genLoop (s : Nat → List Char) : Nat → Nat → LoopResult × List Ev
  | 0, _ => (.fuelOut, [])
  | fuel + 1, k =>
    match generationOf (s k) with
    | none => (.crash k, [.load, .sample k])
    | some g =>
      if countNL g ≤ 18 then (.ok k g, [.load, .sample k])
      else
        let r := genLoop s fuel (k + 1)
        (r.1, .load :: .sample k :: r.2)

/-! ## Character vocabulary (`CharDataset.__init__`, lines 21-30) -/

/-- Sorted insertion, the building block used to model Python
`sorted`. -/
def insertSorted (c : Char) : List Char → List Char
  | [] => [c]
  | d :: t => if c ≤ d then c :: d :: t else d :: insertSorted c t

/-- Python `sorted(list(set(data)))` of line 22: the distinct
characters of the corpus in increasing code-point order. -/
def sortedChars (data : List Char) : List Char :=
  data.dedup.foldr insertSorted []

/-- The dictionary of line 26:
`{ ch:i for i,ch in enumerate(chars) }`. -/
def stoiPairs (data : List Char) : List (Char × Nat) :=
  (sortedChars data).enum.map (fun p => (p.2, p.1))

/-- A lookup in the `stoi` dictionary; `none` models the `KeyError`
raised (and unhandled) by `self.stoi[s]`. -/
def stoi (data : List Char) (c : Char) : Option Nat :=
  (stoiPairs data).lookup c

/-- Line 108: the prompt around the random word,
`"Poem Start\n" + word + "\n\n"`. -/
def promptOf (word : List Char) : List Char :=
  "Poem Start\n".data ++ word ++ "\n\n".data

/-- Line 109: `[train_dataset.stoi[s] for s in context]`; the whole
encoding fails as soon as one character has no entry. -/
def encodeContext (data ctx : List Char) : Option (List Nat) :=
  ctx.mapM (stoi data)

/-! ## Lemmas about the reflow loop -/

/-- One pass of the reflow loop adds exactly one newline. -/
theorem countNL_reflowStep (line : List Char) (i : Nat) :
    countNL (reflowStep line i) = countNL line + 1 := by
  have h : List.count '\n' line
      = List.count '\n' (line.take (i * 60)) + List.count '\n' (line.drop (i * 60)) := by
    conv_lhs => rw [← List.take_append_drop (i * 60) line]
    rw [List.count_append]
  unfold countNL reflowStep
  simp [List.count_append, List.count_cons, h]
  omega

/-- One pass of the reflow loop grows the line by one character. -/
theorem length_reflowStep (line : List Char) (i : Nat) :
    (reflowStep line i).length = line.length + 1 := by
  unfold reflowStep
  conv_rhs => rw [← List.take_append_drop (i * 60) line]
  simp
  omega

/-- One pass of the reflow loop changes no character other than the
inserted newline. -/
theorem filter_reflowStep (f : Char → Bool) (hf : f '\n' = false)
    (line : List Char) (i : Nat) :
    (reflowStep line i).filter f = line.filter f := by
  have h : line.filter f
      = (line.take (i * 60)).filter f ++ (line.drop (i * 60)).filter f := by
    conv_lhs => rw [← List.take_append_drop (i * 60) line]
    rw [List.filter_append]
  unfold reflowStep
  rw [List.filter_append, h]
  congr 1
  simp [List.filter_cons, hf]

theorem countNL_foldl_reflowStep (is : List Nat) :
    ∀ line : List Char,
      countNL (is.foldl reflowStep line) = countNL line + is.length := by
  induction is with
  | nil => intro line; simp
  | cons i t ih =>
    intro line
    simp only [List.foldl_cons, List.length_cons, ih, countNL_reflowStep]
    omega

theorem length_foldl_reflowStep (is : List Nat) :
    ∀ line : List Char,
      (is.foldl reflowStep line).length = line.length + is.length := by
  induction is with
  | nil => intro line; simp
  | cons i t ih =>
    intro line
    simp only [List.foldl_cons, List.length_cons, ih, length_reflowStep]
    omega

theorem filter_foldl_reflowStep (f : Char → Bool) (hf : f '\n' = false) (is : List Nat) :
    ∀ line : List Char,
      (is.foldl reflowStep line).filter f = line.filter f := by
  induction is with
  | nil => intro line; rfl
  | cons i t ih =>
    intro line
    simp only [List.foldl_cons, ih, filter_reflowStep f hf]

/-! ## Claims about the corpus builder -/

/-- Claim C2, counterexample: the reflow loop does not split a line of
length 61 into two segments of at most 60 characters (it leaves the
line untouched, with no newline after a first 60-character segment),
so reflow does not realise the chunking the spec describes. -/
theorem reflow_differs_from_spec_chunking :
    ¬ (reflow (List.replicate 61 'a') = reflowSpec (List.replicate 61 'a')) := by
  decide

/-- Claim C2 (amended): the reflow loop of the corpus builder inserts
exactly `L / 60 - 1` newline characters into a line of length `L`
(none at all when `L < 120`), growing it by that many characters; in
particular reflow applied to an already-short line (length at most 60)
is a no-op. -/
theorem reflow_newline_count (line : List Char) :
    countNL (reflow line) = countNL line + (line.length / 60 - 1) ∧
    (reflow line).length = line.length + (line.length / 60 - 1) ∧
    (line.length ≤ 60 → reflow line = line) := by
  refine ⟨?_, ?_, ?_⟩
  · unfold reflow
    rw [countNL_foldl_reflowStep, List.length_range']
  · unfold reflow
    rw [length_foldl_reflowStep, List.length_range']
  · intro h
    have h1 : line.length / 60 ≤ 1 := Nat.div_le_div_right h
    have h2 : line.length / 60 - 1 = 0 := by omega
    unfold reflow
    rw [h2]
    rfl

/-- Claim C2, witness of the no-op branch at a concrete short line. -/
theorem reflow_newline_count_witness :
    reflow (List.replicate 10 'a') = List.replicate 10 'a' :=
  (reflow_newline_count (List.replicate 10 'a')).2.2 (by decide)

/-- Claim C9: the reflow loop only inserts newline characters — it
never deletes or reorders the other characters, so erasing all
newlines from the reflowed line gives the same string as erasing all
newlines from the original line. -/
theorem reflow_only_inserts_newlines (line : List Char) :
    (reflow line).filter (fun c => c != '\n') = line.filter (fun c => c != '\n') := by
  unfold reflow
  exact filter_foldl_reflowStep (fun c => c != '\n') (by decide) _ line

/-- Claim C3: a poem file whose raw line count exceeds 20 contributes
zero characters to the output: the accumulated buffer is unchanged. -/
theorem long_poem_contributes_nothing (folder file : List Char)
    (lines : List (List Char)) (mega : List Char) (h : 20 < lines.length) :
    mega ++ processFile folder file (some lines) = mega := by
  unfold processFile
  cases hp : parseTitleAuthor folder file with
  | none => simp
  | some ta =>
    obtain ⟨t, a⟩ := ta
    simp [h]

/-- Claim C3, witness: a 21-line poem in a file whose name parses
successfully still contributes nothing. -/
theorem long_poem_contributes_nothing_witness :
    20 < (List.replicate 21 ([] : List Char)).length ∧
    ['x'] ++ processFile "a".data "xAPoemsCatPoemby JohnD.txt".data
        (some (List.replicate 21 [])) = ['x'] :=
  ⟨by decide,
   long_poem_contributes_nothing "a".data "xAPoemsCatPoemby JohnD.txt".data
     (List.replicate 21 []) ['x'] (by decide)⟩

/-- A file on which parsing or reading fails contributes the empty
string. -/
theorem processFile_eq_nil_of_failure (folder file : List Char)
    (contents : Option (List (List Char)))
    (h : parseTitleAuthor folder file = none ∨ contents = none) :
    processFile folder file contents = [] := by
  unfold processFile
  rcases h with h | h
  · simp [h]
  · cases hp : parseTitleAuthor folder file with
    | none => rfl
    | some ta =>
      obtain ⟨t, a⟩ := ta
      simp [h]

/-- Claim C8: per-file atomicity of the corpus build — a file whose
processing fails (filename parsing failure or I/O failure) is skipped
and the accumulated output is exactly what it would have been had the
file not existed. -/
theorem failed_file_skipped_atomically
    (pre post : List (List Char × List Char × Option (List (List Char))))
    (folder file : List Char) (contents : Option (List (List Char)))
    (h : parseTitleAuthor folder file = none ∨ contents = none) :
    buildMega (pre ++ (folder, file, contents) :: post) = buildMega (pre ++ post) := by
  unfold buildMega
  rw [List.foldl_append, List.foldl_append, List.foldl_cons]
  simp [processFile_eq_nil_of_failure folder file contents h]

/-- Claim C8, witness: a file whose name does not contain the
folder-derived marker is skipped without touching the buffer. -/
theorem failed_file_skipped_atomically_witness :
    parseTitleAuthor "nature".data "mismatch.txt".data = none ∧
    buildMega ([("t".data, "TPoemsAPoemby B.txt".data, some [[]])]
        ++ ("nature".data, "mismatch.txt".data, some [[]]) :: [])
      = buildMega ([("t".data, "TPoemsAPoemby B.txt".data, some [[]])] ++ []) :=
  ⟨by decide,
   failed_file_skipped_atomically [("t".data, "TPoemsAPoemby B.txt".data, some [[]])] []
     "nature".data "mismatch.txt".data (some [[]]) (Or.inl (by decide))⟩

/-- Claim C5, counterexample: the filename
`natureCatsPoemsTheOldCatPoemby JaneDoe.txt` in folder `nature` is not
parsed to title `The Old Cat` and author `JaneDoe`. -/
theorem nature_filename_not_parsed_as_claimed :
    ¬ (parseTitleAuthor "nature".data "natureCatsPoemsTheOldCatPoemby JaneDoe.txt".data
        = some ("The Old Cat".data, "JaneDoe".data)) := by
  decide

/-- Claim C5 (amended): the folder-derived marker `NaturePoems` does
not occur (case-sensitively) in the filename
`natureCatsPoemsTheOldCatPoemby JaneDoe.txt`, so the split yields no
second component, parsing fails, and the file contributes nothing. -/
theorem nature_filename_parse_fails :
    parseTitleAuthor "nature".data "natureCatsPoemsTheOldCatPoemby JaneDoe.txt".data = none
    ∧ processFile "nature".data "natureCatsPoemsTheOldCatPoemby JaneDoe.txt".data
        (some ["The old cat sat on the mat.\n".data]) = [] := by
  constructor
  · decide
  · decide

/-! ## Lemmas about `firstOcc` and the truncation -/

/-- When `firstOcc` reports index `i`, the pattern really occurs
there. -/
theorem firstOcc_isPrefixOf (pat : List Char) (l : List Char) : ∀ i : Nat,
    firstOcc pat l = some i → pat.isPrefixOf (l.drop i) = true := by
  induction l with
  | nil =>
    intro i h
    simp only [firstOcc] at h
    split at h
    · next hp =>
      cases h
      subst hp
      rfl
    · cases h
  | cons c t ih =>
    intro i h
    simp only [firstOcc] at h
    split at h
    · next hp =>
      cases h
      simpa using hp
    · next hp =>
      cases ho : firstOcc pat t with
      | none => rw [ho] at h; cases h
      | some i0 =>
        rw [ho] at h
        cases h
        simpa using ih i0 ho

/-- `firstOcc` reports the first occurrence: at every earlier index
the pattern does not occur. -/
theorem firstOcc_is_first (pat : List Char) (l : List Char) : ∀ i : Nat,
    firstOcc pat l = some i → ∀ j < i, pat.isPrefixOf (l.drop j) = false := by
  induction l with
  | nil =>
    intro i h j hj
    simp only [firstOcc] at h
    split at h
    · cases h; omega
    · cases h
  | cons c t ih =>
    intro i h j hj
    simp only [firstOcc] at h
    split at h
    · cases h; omega
    · next hp =>
      cases ho : firstOcc pat t with
      | none => rw [ho] at h; cases h
      | some i0 =>
        rw [ho] at h
        cases h
        cases j with
        | zero => simpa using Bool.eq_false_iff.mpr (fun hb => hp hb)
        | succ j0 =>
          simp only at hj
          simpa using ih i0 ho j0 (by omega)

/-- The kept generation is the prefix of the completion up to and
including the first `"END"`. -/
theorem generationOf_eq (c : List Char) (i : Nat)
    (h : firstOcc endMarker c = some i) :
    generationOf c = some (c.take i ++ endMarker) := by
  unfold generationOf
  rw [h]
  have hpre : endMarker.isPrefixOf (c.drop i) = true := firstOcc_isPrefixOf _ _ _ h
  obtain ⟨t2, ht2⟩ := List.isPrefixOf_iff_prefix.mp hpre
  have h3 : (3 : Nat) = endMarker.length := rfl
  simp only [Option.map_some']
  congr 1
  rw [List.take_add, ← ht2, h3, List.take_left]

/-- Claim C4: for a completion containing `"END"`, the generation the
loop keeps is the prefix up to and including the first occurrence of
the marker (the marker occurs at the reported index and at no earlier
one), and the line-break count the acceptance predicate uses is
computed on exactly that truncated prefix. -/
theorem truncation_at_first_end (c : List Char) (i : Nat)
    (h : firstOcc endMarker c = some i) :
    generationOf c = some (c.take i ++ endMarker) ∧
    endMarker.isPrefixOf (c.drop i) = true ∧
    (∀ j < i, endMarker.isPrefixOf (c.drop j) = false) ∧
    lineBreaksOf c = some (countNL (c.take i ++ endMarker)) :=
  ⟨generationOf_eq c i h, firstOcc_isPrefixOf _ _ _ h, firstOcc_is_first _ _ _ h, by
    unfold lineBreaksOf
    rw [generationOf_eq c i h]
    rfl⟩

/-- A sampled completion used by the loop witnesses below: the
spec's own example, whose first `"END"` is at index 28. -/
def sampleShort : List Char := "Poem Start\nfoo\n\nline1\nline2\nEND\nauthor".data

/-- Claim C4, witness at the spec's example completion. -/
theorem truncation_at_first_end_witness :
    generationOf sampleShort = some (sampleShort.take 28 ++ endMarker) :=
  (truncation_at_first_end sampleShort 28 (by decide)).1

/-! ## Lemmas about the retry loop -/

/-- When the retry loop started at attempt `k0` accepts attempt `k`
with generation `g`: `k` is at or after `k0`, the generation is the
truncation of the sampled completion `s k`, it has at most 18 line
breaks, and every attempt strictly between `k0` and `k` was rejected
because its truncation had more than 18 line breaks. -/
theorem genLoop_ok_spec (s : Nat → List Char) : ∀ (fuel k0 k : Nat) (g : List Char),
    (genLoop s fuel k0).1 = LoopResult.ok k g →
    k0 ≤ k ∧ generationOf (s k) = some g ∧ countNL g ≤ 18 ∧
    ∀ j, k0 ≤ j → j < k → ∃ gj, generationOf (s j) = some gj ∧ 18 < countNL gj := by
  intro fuel
  induction fuel with
  | zero =>
    intro k0 k g h
    simp [genLoop] at h
  | succ fuel ih =>
    intro k0 k g h
    simp only [genLoop] at h
    cases ho : generationOf (s k0) with
    | none =>
      simp only [ho] at h
      exact LoopResult.noConfusion h
    | some g0 =>
      simp only [ho] at h
      by_cases hc : countNL g0 ≤ 18
      · rw [if_pos hc] at h
        have h' : LoopResult.ok k0 g0 = LoopResult.ok k g := h
        cases h'
        exact ⟨Nat.le_refl _, ho, hc, fun j hj1 hj2 => absurd (Nat.lt_of_le_of_lt hj1 hj2)
          (Nat.lt_irrefl _)⟩
      · rw [if_neg hc] at h
        obtain ⟨h1, h2, h3, h4⟩ := ih (k0 + 1) k g h
        refine ⟨by omega, h2, h3, ?_⟩
        intro j hj1 hj2
        rcases Nat.eq_or_lt_of_le hj1 with he | hlt
        · subst he
          exact ⟨g0, ho, by omega⟩
        · exact h4 j hlt hj2

/-- Claim C1: if the retry loop terminates with an accepted result,
the accepted generation has at most 18 line breaks, it is the
truncation of the sampled completion of the accepted attempt, and
every earlier attempt was rejected: the loop exits exactly at the
first attempt whose truncated completion has at most 18 line
breaks. -/
theorem loop_accepts_first_valid (s : Nat → List Char) (fuel k : Nat) (g : List Char)
    (h : (genLoop s fuel 0).1 = LoopResult.ok k g) :
    countNL g ≤ 18 ∧ generationOf (s k) = some g ∧
    ∀ j < k, ∃ gj, generationOf (s j) = some gj ∧ 18 < countNL gj := by
  obtain ⟨-, h2, h3, h4⟩ := genLoop_ok_spec s fuel 0 k g h
  exact ⟨h3, h2, fun j hj => h4 j (Nat.zero_le j) hj⟩

/-- A sampled completion with 25 line breaks before its `"END"`:
rejected by the acceptance predicate. -/
def sampleLong : List Char := List.replicate 25 '\n' ++ "END".data

/-- A sampled completion with no `"END"` marker at all. -/
def sampleNoEnd : List Char := "no marker here".data

/-- A sequence of sampled completions: a rejected completion first,
then an accepted one. -/
def sampleSeq : Nat → List Char := fun n => if n = 0 then sampleLong else sampleShort

/-- A sequence of sampled completions: a rejected completion first,
then one with no `"END"` marker. -/
def crashSeq : Nat → List Char := fun n => if n = 0 then sampleLong else sampleNoEnd

/-- Claim C1, witness: the loop driven by `sampleSeq` rejects attempt
0 and accepts attempt 1. -/
theorem loop_accepts_first_valid_witness :
    countNL ("Poem Start\nfoo\n\nline1\nline2\nEND".data) ≤ 18 ∧
    generationOf (sampleSeq 1) = some ("Poem Start\nfoo\n\nline1\nline2\nEND".data) ∧
    ∀ j < 1, ∃ gj, generationOf (sampleSeq j) = some gj ∧ 18 < countNL gj :=
  loop_accepts_first_valid sampleSeq 2 1 ("Poem Start\nfoo\n\nline1\nline2\nEND".data)
    (by decide)

/-- When every attempt from `k0` up to (but excluding) `k` is rejected
and the completion of attempt `k` has no `"END"` marker, the loop
crashes at attempt `k`. -/
theorem genLoop_crash_spec (s : Nat → List Char) : ∀ (fuel k0 k : Nat),
    k0 ≤ k → k - k0 < fuel →
    (∀ j, k0 ≤ j → j < k → ∃ gj, generationOf (s j) = some gj ∧ 18 < countNL gj) →
    firstOcc endMarker (s k) = none →
    (genLoop s fuel k0).1 = LoopResult.crash k := by
  intro fuel
  induction fuel with
  | zero =>
    intro k0 k hle hf
    omega
  | succ fuel ih =>
    intro k0 k hle hf hrej hnone
    rcases Nat.eq_or_lt_of_le hle with he | hlt
    · subst he
      have hg : generationOf (s k0) = none := by
        unfold generationOf
        rw [hnone]
        rfl
      simp [genLoop, hg]
    · obtain ⟨g0, hg0, hgt⟩ := hrej k0 (Nat.le_refl _) hlt
      simp only [genLoop, hg0]
      rw [if_neg (by omega)]
      exact ih (k0 + 1) k (by omega) (by omega)
        (fun j hj1 hj2 => hrej j (by omega) hj2) hnone

/-- Claim C6: if the loop reaches an attempt whose sampled completion
never contains `"END"` (all earlier attempts having been rejected),
the completion-index lookup fails and the run ends abnormally at that
attempt — no retry or recovery occurs. -/
theorem missing_end_marker_crashes (s : Nat → List Char) (fuel k : Nat)
    (hf : k < fuel)
    (hrej : ∀ j < k, ∃ gj, generationOf (s j) = some gj ∧ 18 < countNL gj)
    (hnone : firstOcc endMarker (s k) = none) :
    (genLoop s fuel 0).1 = LoopResult.crash k :=
  genLoop_crash_spec s fuel 0 k (Nat.zero_le k) (by omega)
    (fun j _ hj => hrej j hj) hnone

/-- Claim C6, witness: attempt 0 is rejected, attempt 1 has no
`"END"`, and the loop crashes at attempt 1. -/
theorem missing_end_marker_crashes_witness :
    (genLoop crashSeq 3 0).1 = LoopResult.crash 1 :=
  missing_end_marker_crashes crashSeq 3 1 (by decide)
    (by
      intro j hj
      have hj0 : j = 0 := by omega
      subst hj0
      exact ⟨sampleLong, by decide, by decide⟩)
    (by decide)

/-- The event trace of an accepting run started at `k0`: one
checkpoint load followed by one sampling for every attempt from `k0`
through the accepted attempt `k`. -/
theorem genLoop_ok_trace (s : Nat → List Char) : ∀ (fuel k0 k : Nat) (g : List Char),
    (genLoop s fuel k0).1 = LoopResult.ok k g →
    (genLoop s fuel k0).2 =
      ((List.range' k0 (k + 1 - k0)).map (fun j => [Ev.load, Ev.sample j])).flatten := by
  intro fuel
  induction fuel with
  | zero =>
    intro k0 k g h
    exact LoopResult.noConfusion h
  | succ fuel ih =>
    intro k0 k g h
    have hle : k0 ≤ k := (genLoop_ok_spec s (fuel + 1) k0 k g h).1
    simp only [genLoop] at h ⊢
    cases ho : generationOf (s k0) with
    | none =>
      simp only [ho] at h
      exact LoopResult.noConfusion h
    | some g0 =>
      simp only [ho] at h ⊢
      by_cases hc : countNL g0 ≤ 18
      · rw [if_pos hc] at h ⊢
        have h' : LoopResult.ok k0 g0 = LoopResult.ok k g := h
        cases h'
        have hn : k0 + 1 - k0 = 1 := by omega
        rw [hn, List.range'_succ]
        rfl
      · rw [if_neg hc] at h ⊢
        have hlt : k0 + 1 ≤ k := (genLoop_ok_spec s fuel (k0 + 1) k g h).1
        have ht := ih (k0 + 1) k g h
        have hn : k + 1 - k0 = (k - k0 - 1) + 1 + 1 := by omega
        have hn2 : k + 1 - (k0 + 1) = (k - k0 - 1) + 1 := by omega
        rw [hn, List.range'_succ]
        simp only [List.map_cons, List.flatten_cons]
        rw [← hn2, ← ht]
        rfl

/-- Count of checkpoint loads in a trace made of one load-sample block
per attempt. -/
theorem count_load_blocks : ∀ l : List Nat,
    ((l.map (fun j => [Ev.load, Ev.sample j])).flatten).count Ev.load = l.length := by
  intro l
  induction l with
  | nil => rfl
  | cons j t ih =>
    simp only [List.map_cons, List.flatten_cons, List.count_append, ih, List.length_cons]
    have h1 : List.count Ev.load [Ev.load, Ev.sample j] = 1 := rfl
    omega

/-- Claim C7: every iteration of the retry loop loads the model
checkpoint before the prompt is constructed and sampling occurs, so a
run accepted at attempt `k` (hence with `k + 1` attempts) performs
exactly `k + 1` checkpoint loads, one right before each sampling. -/
theorem checkpoint_loaded_every_iteration (s : Nat → List Char) (fuel k : Nat)
    (g : List Char) (h : (genLoop s fuel 0).1 = LoopResult.ok k g) :
    (genLoop s fuel 0).2 =
      ((List.range (k + 1)).map (fun j => [Ev.load, Ev.sample j])).flatten ∧
    ((genLoop s fuel 0).2).count Ev.load = k + 1 := by
  have ht := genLoop_ok_trace s fuel 0 k g h
  simp only [Nat.sub_zero] at ht
  rw [List.range_eq_range']
  refine ⟨ht, ?_⟩
  rw [ht, count_load_blocks, List.length_range']

/-- Claim C7, witness: two attempts, two checkpoint loads, each load
preceding its sampling. -/
theorem checkpoint_loaded_every_iteration_witness :
    (genLoop sampleSeq 2 0).2 =
      ((List.range 2).map (fun j => [Ev.load, Ev.sample j])).flatten ∧
    ((genLoop sampleSeq 2 0).2).count Ev.load = 2 :=
  checkpoint_loaded_every_iteration sampleSeq 2 1
    ("Poem Start\nfoo\n\nline1\nline2\nEND".data) (by decide)

/-! ## Lemmas about the character vocabulary -/

theorem mem_insertSorted (a c : Char) : ∀ l : List Char,
    a ∈ insertSorted c l ↔ a = c ∨ a ∈ l := by
  intro l
  induction l with
  | nil => simp [insertSorted]
  | cons d t ih =>
    simp only [insertSorted]
    split
    · simp [List.mem_cons]
    · simp only [List.mem_cons, ih]
      tauto

theorem mem_sortedChars (a : Char) (data : List Char) :
    a ∈ sortedChars data ↔ a ∈ data := by
  unfold sortedChars
  rw [← List.mem_dedup (a := a) (l := data)]
  generalize data.dedup = l
  induction l with
  | nil => simp
  | cons c t ih =>
    simp only [List.foldr_cons, mem_insertSorted, ih, List.mem_cons]

/-- A lookup in an enumeration-built dictionary fails for a key absent
from the enumerated list. -/
theorem lookup_enumFrom_none (c : Char) : ∀ (l : List Char) (n : Nat), c ∉ l →
    ((l.enumFrom n).map (fun p => (p.2, p.1))).lookup c = none := by
  intro l
  induction l with
  | nil =>
    intro n _
    rfl
  | cons x t ih =>
    intro n hc
    have hx : c ≠ x := fun he => hc (he ▸ List.mem_cons_self x t)
    have ht : c ∉ t := fun hm => hc (List.mem_cons_of_mem x hm)
    have hb : (c == x) = false := by simpa using hx
    simp only [List.enumFrom, List.map_cons, List.lookup, hb]
    exact ih (n + 1) ht

/-- `stoi` has no entry for a character that does not occur in the
training corpus. -/
theorem stoi_none_of_not_mem (data : List Char) (c : Char) (h : c ∉ data) :
    stoi data c = none := by
  have hs : c ∉ sortedChars data := fun hc => h ((mem_sortedChars c data).mp hc)
  unfold stoi stoiPairs List.enum
  exact lookup_enumFrom_none c (sortedChars data) 0 hs

/-- A character-by-character encoding fails as soon as one character
fails to encode. -/
theorem mapM_none_of_mem (f : Char → Option Nat) : ∀ (l : List Char) (c : Char),
    c ∈ l → f c = none → l.mapM f = none := by
  intro l
  induction l with
  | nil =>
    intro c hc
    cases hc
  | cons x t ih =>
    intro c hc hf
    rw [List.mapM_cons]
    rcases List.mem_cons.mp hc with he | hm
    · subst he
      rw [hf]
      rfl
    · cases hx : f x with
      | none => rfl
      | some y =>
        simp only [Option.bind_eq_bind, Option.some_bind, ih c hm hf]
        rfl

/-- Claim C10: prompt encoding is partial — whenever the random word
contains a character that does not occur in the training corpus, the
character-to-index lookup has no entry for it and encoding the prompt
fails (the `KeyError` is unhandled), because the `stoi` map is built
only from the characters present in the corpus. -/
theorem prompt_encoding_partial (data word : List Char) (c : Char)
    (hmem : c ∈ word) (hnot : c ∉ data) :
    encodeContext data (promptOf word) = none := by
  unfold encodeContext
  refine mapM_none_of_mem (stoi data) (promptOf word) c ?_ (stoi_none_of_not_mem data c hnot)
  unfold promptOf
  simp [hmem]

/-- Claim C10, witness: the word `"z"` against the corpus `"abc"`. -/
theorem prompt_encoding_partial_witness :
    encodeContext "abc".data (promptOf ['z']) = none :=
  prompt_encoding_partial "abc".data ['z'] 'z' (by decide) (by decide)

end PoemRepo
